import Mathlib

/-!
Shallow embedding of the sozu-pki-connector reconciliation engine
(src/svc/certificates/{mod,diff,message,watcher}.rs).

Paths are modelled as lists of components, HashMaps as association lists
(Mathlib.AList), HashSets of strings as Finsets, and the external
collaborators (filesystem, PEM/X.509 parsing, digest, JSON options
parsing, the proxy client) as abstract function parameters.
-/

namespace Pki

/-- A filesystem path, as its list of components (`PathBuf`). -/
abbrev Path := List String

/-- A certificate fingerprint, rendered as its string form. -/
abbrev Fingerprint := String

/-- A socket address, kept abstract as a string (`SocketAddr`). -/
abbrev SocketAddr := String

/-- Embeds `CertificateAndKey` from `sozu_command_lib::proto::command`. -/
structure CertificateAndKey where
  certificate : String
  certificate_chain : List String
  key : String
  versions : List Nat
  names : List String
deriving DecidableEq, Repr

/-- Embeds `Metadata` from src/svc/certificates/mod.rs: derived, comparable
summary of a bundle. Equality is full structural equality. -/
structure Metadata where
  fingerprint : Fingerprint
  names : Finset String
  path : Path
  chain_fingerprints : Finset Fingerprint
deriving DecidableEq

/-- Embeds `Metadata::new` (src/svc/certificates/mod.rs). -/
def Metadata.new (path : Path) (fingerprint : Fingerprint)
    (names : Finset String) (chain_fingerprints : Finset Fingerprint) : Metadata :=
  { path := path, names := names, fingerprint := fingerprint,
    chain_fingerprints := chain_fingerprints }

/-- A `HashMap<PathBuf, Metadata>` snapshot. -/
abbrev MetadataMap := AList (fun _ : Path => Metadata)

/-- A `HashMap<PathBuf, CertificateAndKey>` bundle mapping. -/
abbrev BundleMap := AList (fun _ : Path => CertificateAndKey)

/-- Embeds `Diff<PathBuf>` from src/svc/certificates/diff.rs. The Rust sets are
hash sets; we carry them as duplicate-free lists. -/
structure Diff where
  added : List Path
  deleted : List Path
  modified : List Path
deriving Repr

namespace diff

/-- Embeds `diff::create` (src/svc/certificates/diff.rs, lines 43-67):
deleted = current keys minus new keys, added = new keys minus current
keys, modified = keys in the intersection whose values differ. -/
def create (current new : MetadataMap) : Diff :=
  let deleted_keys := current.keys.filter (fun path => decide (path ∉ new.keys))
  let added_keys := new.keys.filter (fun path => decide (path ∉ current.keys))
  let modified_keys := current.keys.filter
    (fun path => decide (path ∈ new.keys ∧ current.lookup path ≠ new.lookup path))
  { added := added_keys, modified := modified_keys, deleted := deleted_keys }

end diff

-- Basic membership characterisations of the diff sets.

theorem mem_added_iff (current new : MetadataMap) (k : Path) :
    k ∈ (diff.create current new).added ↔ k ∈ new.keys ∧ k ∉ current.keys := by
  simp [diff.create, List.mem_filter]

theorem mem_deleted_iff (current new : MetadataMap) (k : Path) :
    k ∈ (diff.create current new).deleted ↔ k ∈ current.keys ∧ k ∉ new.keys := by
  simp [diff.create, List.mem_filter]

theorem mem_modified_iff (current new : MetadataMap) (k : Path) :
    k ∈ (diff.create current new).modified ↔
      k ∈ current.keys ∧ k ∈ new.keys ∧ current.lookup k ≠ new.lookup k := by
  simp [diff.create, List.mem_filter, and_assoc]

theorem added_nodup (current new : MetadataMap) :
    (diff.create current new).added.Nodup :=
  (AList.keys_nodup new).filter _

theorem deleted_nodup (current new : MetadataMap) :
    (diff.create current new).deleted.Nodup :=
  (AList.keys_nodup current).filter _

theorem modified_nodup (current new : MetadataMap) :
    (diff.create current new).modified.Nodup :=
  (AList.keys_nodup current).filter _

/-- C1: `diff::create` computes added = keys(new) − keys(current),
deleted = keys(current) − keys(new), modified = keys in both with unequal
Metadata values; the three sets are pairwise disjoint; and
`diff::create(A, A)` yields three empty sets. -/
theorem diff_create_spec (current new A : MetadataMap) :
    (∀ k, k ∈ (diff.create current new).added ↔ k ∈ new.keys ∧ k ∉ current.keys) ∧
    (∀ k, k ∈ (diff.create current new).deleted ↔ k ∈ current.keys ∧ k ∉ new.keys) ∧
    (∀ k, k ∈ (diff.create current new).modified ↔
        k ∈ current.keys ∧ k ∈ new.keys ∧ current.lookup k ≠ new.lookup k) ∧
    (∀ k, ¬(k ∈ (diff.create current new).added ∧ k ∈ (diff.create current new).deleted)) ∧
    (∀ k, ¬(k ∈ (diff.create current new).added ∧ k ∈ (diff.create current new).modified)) ∧
    (∀ k, ¬(k ∈ (diff.create current new).deleted ∧ k ∈ (diff.create current new).modified)) ∧
    ((diff.create A A).added = [] ∧ (diff.create A A).deleted = [] ∧
      (diff.create A A).modified = []) := by
  refine ⟨mem_added_iff current new, mem_deleted_iff current new,
    mem_modified_iff current new, ?_, ?_, ?_, ?_, ?_, ?_⟩
  · intro k ⟨ha, hd⟩
    rw [mem_added_iff] at ha
    rw [mem_deleted_iff] at hd
    exact ha.2 hd.1
  · intro k ⟨ha, hm⟩
    rw [mem_added_iff] at ha
    rw [mem_modified_iff] at hm
    exact ha.2 hm.1
  · intro k ⟨hd, hm⟩
    rw [mem_deleted_iff] at hd
    rw [mem_modified_iff] at hm
    exact hd.2 hm.2.1
  · simp [diff.create]
  · simp [diff.create]
  · simp [diff.create]

-- -------------------------------------------------------------------------
-- src/svc/certificates/message.rs

/-- Embeds `AddCertificate` payload (address, certificate, expired_at: None). -/
structure AddCertificate where
  address : SocketAddr
  certificate : CertificateAndKey
  expired_at : Option Nat
deriving DecidableEq, Repr

/-- Embeds `RemoveCertificate` payload (address, fingerprint string). -/
structure RemoveCertificate where
  address : SocketAddr
  fingerprint : String
deriving DecidableEq, Repr

/-- Embeds `ReplaceCertificate` payload (address, new certificate, old
fingerprint string, new_expired_at: None). -/
structure ReplaceCertificate where
  address : SocketAddr
  new_certificate : CertificateAndKey
  old_fingerprint : String
  new_expired_at : Option Nat
deriving DecidableEq, Repr

/-- Embeds `RequestType` from `sozu_command_lib::proto::command::request`,
restricted to the three variants this program builds. -/
inductive RequestType where
  | addCertificate (a : AddCertificate)
  | removeCertificate (r : RemoveCertificate)
  | replaceCertificate (r : ReplaceCertificate)
deriving DecidableEq, Repr

def RequestType.isAdd : RequestType → Bool
  | .addCertificate _ => true
  | _ => false

def RequestType.isRemove : RequestType → Bool
  | .removeCertificate _ => true
  | _ => false

def RequestType.isReplace : RequestType → Bool
  | .replaceCertificate _ => true
  | _ => false

namespace message

/-- Embeds `message::Error` (src/svc/certificates/message.rs). -/
inductive Error where
  | NoPKIAt (p : Path)
  | NoMetadataFor (p : Path)
deriving DecidableEq, Repr

/-- The loop over `diff.added` in `message::create`: for each added path,
look up its metadata in `new` (else `NoMetadataFor`) and its payload in
`pki` (else `NoPKIAt`), and build an `AddCertificate` request. -/
def createAdds (https_listener : SocketAddr) (new : MetadataMap) (pki : BundleMap) :
    List Path → Except Error (List (Path × RequestType))
  | [] => .ok []
  | added :: rest =>
    match new.lookup added with
    | none => .error (.NoMetadataFor added)
    | some _metadata =>
      match pki.lookup added with
      | none => .error (.NoPKIAt added)
      | some certificate =>
        match createAdds https_listener new pki rest with
        | .error e => .error e
        | .ok acc =>
          .ok ((added, RequestType.addCertificate
            { address := https_listener, certificate := certificate,
              expired_at := none }) :: acc)

/-- The loop over `diff.deleted` in `message::create`: for each deleted
path, look up its metadata in `current` (else `NoMetadataFor`) and build a
`RemoveCertificate` request carrying that metadata's fingerprint. -/
def createDels (https_listener : SocketAddr) (current : MetadataMap) :
    List Path → Except Error (List (Path × RequestType))
  | [] => .ok []
  | deleted :: rest =>
    match current.lookup deleted with
    | none => .error (.NoMetadataFor deleted)
    | some metadata =>
      match createDels https_listener current rest with
      | .error e => .error e
      | .ok acc =>
        .ok ((deleted, RequestType.removeCertificate
          { address := https_listener,
            fingerprint := metadata.fingerprint }) :: acc)

/-- The loop over `diff.modified` in `message::create`: for each modified
path, look up its metadata in `current` (else `NoMetadataFor`); when trace
logging is enabled, also look up `new` (else `NoMetadataFor`); look up the
payload in `pki` (else `NoPKIAt`); build a `ReplaceCertificate` request
with the new payload and the old fingerprint. -/
def createReps (traceEnabled : Bool) (https_listener : SocketAddr)
    (current new : MetadataMap) (pki : BundleMap) :
    List Path → Except Error (List (Path × RequestType))
  | [] => .ok []
  | modified :: rest =>
    match current.lookup modified with
    | none => .error (.NoMetadataFor modified)
    | some metadata =>
      match (if traceEnabled then (new.lookup modified).isNone else false) with
      | true => .error (.NoMetadataFor modified)
      | false =>
        match pki.lookup modified with
        | none => .error (.NoPKIAt modified)
        | some new_certificate =>
          match createReps traceEnabled https_listener current new pki rest with
          | .error e => .error e
          | .ok acc =>
            .ok ((modified, RequestType.replaceCertificate
              { address := https_listener, new_certificate := new_certificate,
                old_fingerprint := metadata.fingerprint,
                new_expired_at := none }) :: acc)

/-- Embeds `message::create` (src/svc/certificates/message.rs, lines 29-122):
computes the diff of `current` against `new` internally, then accumulates
Add requests for added paths, Remove requests for deleted paths, and
Replace requests for modified paths, in that order. `traceEnabled` models
`tracing::enabled!(Level::TRACE)`, which gates an extra lookup of `new`
in the modified branch. -/
def create (traceEnabled : Bool) (https_listener : SocketAddr)
    (current new : MetadataMap) (pki : BundleMap) :
    Except Error (List (Path × RequestType)) :=
  let d := diff.create current new
  match createAdds https_listener new pki d.added with
  | .error e => .error e
  | .ok adds =>
    match createDels https_listener current d.deleted with
    | .error e => .error e
    | .ok dels =>
      match createReps traceEnabled https_listener current new pki d.modified with
      | .error e => .error e
      | .ok reps => .ok (adds ++ dels ++ reps)

end message

-- Characterisation lemmas for the three builder loops.

theorem createAdds_shape (l : SocketAddr) (new : MetadataMap) (pki : BundleMap) :
    ∀ ps out, message.createAdds l new pki ps = .ok out →
      out.map Prod.fst = ps ∧ ∀ pr ∈ out, (pr.2).isAdd = true := by
  intro ps
  induction ps with
  | nil =>
    intro out h
    simp only [message.createAdds] at h
    cases h
    simp
  | cons p rest ih =>
    intro out h
    simp only [message.createAdds] at h
    cases hnew : new.lookup p with
    | none => rw [hnew] at h; cases h
    | some md =>
      rw [hnew] at h
      cases hpki : pki.lookup p with
      | none => rw [hpki] at h; cases h
      | some ck =>
        rw [hpki] at h
        cases hrec : message.createAdds l new pki rest with
        | error e => rw [hrec] at h; cases h
        | ok acc =>
          rw [hrec] at h
          cases h
          obtain ⟨h1, h2⟩ := ih acc hrec
          refine ⟨by simp [h1], ?_⟩
          intro pr hpr
          rcases List.mem_cons.1 hpr with h | h
          · subst h; rfl
          · exact h2 pr h

theorem createDels_shape (l : SocketAddr) (current : MetadataMap) :
    ∀ ps out, message.createDels l current ps = .ok out →
      out.map Prod.fst = ps ∧ ∀ pr ∈ out, (pr.2).isRemove = true := by
  intro ps
  induction ps with
  | nil =>
    intro out h
    simp only [message.createDels] at h
    cases h
    simp
  | cons p rest ih =>
    intro out h
    simp only [message.createDels] at h
    cases hcur : current.lookup p with
    | none => rw [hcur] at h; cases h
    | some md =>
      rw [hcur] at h
      cases hrec : message.createDels l current rest with
      | error e => rw [hrec] at h; cases h
      | ok acc =>
        rw [hrec] at h
        cases h
        obtain ⟨h1, h2⟩ := ih acc hrec
        refine ⟨by simp [h1], ?_⟩
        intro pr hpr
        rcases List.mem_cons.1 hpr with h | h
        · subst h; rfl
        · exact h2 pr h

theorem createReps_shape (te : Bool) (l : SocketAddr) (current new : MetadataMap)
    (pki : BundleMap) :
    ∀ ps out, message.createReps te l current new pki ps = .ok out →
      out.map Prod.fst = ps ∧ ∀ pr ∈ out, (pr.2).isReplace = true := by
  intro ps
  induction ps with
  | nil =>
    intro out h
    simp only [message.createReps] at h
    cases h
    simp
  | cons p rest ih =>
    intro out h
    simp only [message.createReps] at h
    cases hcur : current.lookup p with
    | none => rw [hcur] at h; cases h
    | some md =>
      rw [hcur] at h
      cases htr : (if te then (new.lookup p).isNone else false) with
      | true => rw [htr] at h; cases h
      | false =>
        rw [htr] at h
        cases hpki : pki.lookup p with
        | none => rw [hpki] at h; cases h
        | some ck =>
          rw [hpki] at h
          cases hrec : message.createReps te l current new pki rest with
          | error e => rw [hrec] at h; cases h
          | ok acc =>
            rw [hrec] at h
            cases h
            obtain ⟨h1, h2⟩ := ih acc hrec
            refine ⟨by simp [h1], ?_⟩
            intro pr hpr
            rcases List.mem_cons.1 hpr with h | h
            · subst h; rfl
            · exact h2 pr h

theorem createDels_mem (l : SocketAddr) (current : MetadataMap) :
    ∀ ps out, message.createDels l current ps = .ok out →
      ∀ p r, (p, r) ∈ out ↔
        p ∈ ps ∧ ∃ md, current.lookup p = some md ∧
          r = RequestType.removeCertificate
            { address := l, fingerprint := md.fingerprint } := by
  intro ps
  induction ps with
  | nil =>
    intro out h p r
    simp only [message.createDels] at h
    cases h
    simp
  | cons q rest ih =>
    intro out h p r
    simp only [message.createDels] at h
    cases hcur : current.lookup q with
    | none => rw [hcur] at h; cases h
    | some md =>
      rw [hcur] at h
      cases hrec : message.createDels l current rest with
      | error e => rw [hrec] at h; cases h
      | ok acc =>
        rw [hrec] at h
        cases h
        constructor
        · intro hmem
          rcases List.mem_cons.1 hmem with h | h
          · obtain ⟨h1, h2⟩ := Prod.mk.injEq .. ▸ h
            refine ⟨by simp [h1], md, ?_, by simp [h2]⟩
            rw [← h1] at hcur; exact hcur
          · obtain ⟨hp, md2, hmd2, hr⟩ := (ih acc hrec p r).1 h
            exact ⟨List.mem_cons_of_mem _ hp, md2, hmd2, hr⟩
        · rintro ⟨hp, md2, hmd2, hr⟩
          rcases List.mem_cons.1 hp with h | h
          · subst h
            rw [hcur] at hmd2
            cases hmd2
            subst hr
            exact List.mem_cons_self _ _
          · exact List.mem_cons_of_mem _ ((ih acc hrec p r).2 ⟨h, md2, hmd2, hr⟩)

theorem createReps_mem (te : Bool) (l : SocketAddr) (current new : MetadataMap)
    (pki : BundleMap) :
    ∀ ps out, message.createReps te l current new pki ps = .ok out →
      ∀ p r, (p, r) ∈ out ↔
        p ∈ ps ∧ ∃ md ck, current.lookup p = some md ∧ pki.lookup p = some ck ∧
          r = RequestType.replaceCertificate
            { address := l, new_certificate := ck,
              old_fingerprint := md.fingerprint, new_expired_at := none } := by
  intro ps
  induction ps with
  | nil =>
    intro out h p r
    simp only [message.createReps] at h
    cases h
    simp
  | cons q rest ih =>
    intro out h p r
    simp only [message.createReps] at h
    cases hcur : current.lookup q with
    | none => rw [hcur] at h; cases h
    | some md =>
      rw [hcur] at h
      cases htr : (if te then (new.lookup q).isNone else false) with
      | true => rw [htr] at h; cases h
      | false =>
        rw [htr] at h
        cases hpki : pki.lookup q with
        | none => rw [hpki] at h; cases h
        | some ck =>
          rw [hpki] at h
          cases hrec : message.createReps te l current new pki rest with
          | error e => rw [hrec] at h; cases h
          | ok acc =>
            rw [hrec] at h
            cases h
            constructor
            · intro hmem
              rcases List.mem_cons.1 hmem with h | h
              · obtain ⟨h1, h2⟩ := Prod.mk.injEq .. ▸ h
                subst h1
                exact ⟨List.mem_cons_self _ _, md, ck, hcur, hpki, by simp [h2]⟩
              · obtain ⟨hp, md2, ck2, hmd2, hck2, hr⟩ := (ih acc hrec p r).1 h
                exact ⟨List.mem_cons_of_mem _ hp, md2, ck2, hmd2, hck2, hr⟩
            · rintro ⟨hp, md2, ck2, hmd2, hck2, hr⟩
              rcases List.mem_cons.1 hp with h | h
              · subst h
                rw [hcur] at hmd2
                rw [hpki] at hck2
                cases hmd2
                cases hck2
                subst hr
                exact List.mem_cons_self _ _
              · exact List.mem_cons_of_mem _
                  ((ih acc hrec p r).2 ⟨h, md2, ck2, hmd2, hck2, hr⟩)

theorem createAdds_isOk (l : SocketAddr) (new : MetadataMap) (pki : BundleMap) :
    ∀ ps, (∀ p ∈ ps, (new.lookup p).isSome = true) →
      (∀ p ∈ ps, (pki.lookup p).isSome = true) →
      ∃ out, message.createAdds l new pki ps = .ok out := by
  intro ps
  induction ps with
  | nil => intro _ _; exact ⟨[], rfl⟩
  | cons p rest ih =>
    intro h1 h2
    obtain ⟨md, hmd⟩ := Option.isSome_iff_exists.1 (h1 p (List.mem_cons_self _ _))
    obtain ⟨ck, hck⟩ := Option.isSome_iff_exists.1 (h2 p (List.mem_cons_self _ _))
    obtain ⟨out, hout⟩ := ih (fun q hq => h1 q (List.mem_cons_of_mem _ hq))
      (fun q hq => h2 q (List.mem_cons_of_mem _ hq))
    refine ⟨(p, RequestType.addCertificate
      { address := l, certificate := ck, expired_at := none }) :: out, ?_⟩
    simp only [message.createAdds, hmd, hck, hout]

theorem createDels_isOk (l : SocketAddr) (current : MetadataMap) :
    ∀ ps, (∀ p ∈ ps, (current.lookup p).isSome = true) →
      ∃ out, message.createDels l current ps = .ok out := by
  intro ps
  induction ps with
  | nil => intro _; exact ⟨[], rfl⟩
  | cons p rest ih =>
    intro h1
    obtain ⟨md, hmd⟩ := Option.isSome_iff_exists.1 (h1 p (List.mem_cons_self _ _))
    obtain ⟨out, hout⟩ := ih (fun q hq => h1 q (List.mem_cons_of_mem _ hq))
    refine ⟨(p, RequestType.removeCertificate
      { address := l, fingerprint := md.fingerprint }) :: out, ?_⟩
    simp only [message.createDels, hmd, hout]

theorem createReps_isOk (te : Bool) (l : SocketAddr) (current new : MetadataMap)
    (pki : BundleMap) :
    ∀ ps, (∀ p ∈ ps, (current.lookup p).isSome = true) →
      (∀ p ∈ ps, (new.lookup p).isSome = true) →
      (∀ p ∈ ps, (pki.lookup p).isSome = true) →
      ∃ out, message.createReps te l current new pki ps = .ok out := by
  intro ps
  induction ps with
  | nil => intro _ _ _; exact ⟨[], rfl⟩
  | cons p rest ih =>
    intro h1 h2 h3
    obtain ⟨md, hmd⟩ := Option.isSome_iff_exists.1 (h1 p (List.mem_cons_self _ _))
    obtain ⟨ck, hck⟩ := Option.isSome_iff_exists.1 (h3 p (List.mem_cons_self _ _))
    have hnn : (if te then (new.lookup p).isNone else false) = false := by
      cases te with
      | false => rfl
      | true =>
        obtain ⟨v, hv⟩ := Option.isSome_iff_exists.1 (h2 p (List.mem_cons_self _ _))
        simp [hv]
    obtain ⟨out, hout⟩ := ih (fun q hq => h1 q (List.mem_cons_of_mem _ hq))
      (fun q hq => h2 q (List.mem_cons_of_mem _ hq))
      (fun q hq => h3 q (List.mem_cons_of_mem _ hq))
    refine ⟨(p, RequestType.replaceCertificate
      { address := l, new_certificate := ck,
        old_fingerprint := md.fingerprint, new_expired_at := none }) :: out, ?_⟩
    simp only [message.createReps, hmd, hnn, hck, hout]

theorem createAdds_noMeta (l : SocketAddr) (new : MetadataMap) (pki : BundleMap) :
    ∀ ps, (∀ p ∈ ps, (new.lookup p).isSome = true) →
      ∀ q, message.createAdds l new pki ps ≠ .error (.NoMetadataFor q) := by
  intro ps
  induction ps with
  | nil => intro _ q h; cases h
  | cons p rest ih =>
    intro h1 q h
    obtain ⟨md, hmd⟩ := Option.isSome_iff_exists.1 (h1 p (List.mem_cons_self _ _))
    simp only [message.createAdds, hmd] at h
    cases hpki : pki.lookup p with
    | none => rw [hpki] at h; cases h
    | some ck =>
      rw [hpki] at h
      cases hrec : message.createAdds l new pki rest with
      | error e =>
        rw [hrec] at h
        cases h
        exact ih (fun r hr => h1 r (List.mem_cons_of_mem _ hr)) q hrec
      | ok acc => rw [hrec] at h; cases h

theorem createDels_noMeta (l : SocketAddr) (current : MetadataMap) :
    ∀ ps, (∀ p ∈ ps, (current.lookup p).isSome = true) →
      ∀ q, message.createDels l current ps ≠ .error (.NoMetadataFor q) := by
  intro ps
  induction ps with
  | nil => intro _ q h; cases h
  | cons p rest ih =>
    intro h1 q h
    obtain ⟨md, hmd⟩ := Option.isSome_iff_exists.1 (h1 p (List.mem_cons_self _ _))
    simp only [message.createDels, hmd] at h
    cases hrec : message.createDels l current rest with
    | error e =>
      rw [hrec] at h
      cases h
      exact ih (fun r hr => h1 r (List.mem_cons_of_mem _ hr)) q hrec
    | ok acc => rw [hrec] at h; cases h

theorem createReps_noMeta (te : Bool) (l : SocketAddr) (current new : MetadataMap)
    (pki : BundleMap) :
    ∀ ps, (∀ p ∈ ps, (current.lookup p).isSome = true) →
      (∀ p ∈ ps, (new.lookup p).isSome = true) →
      ∀ q, message.createReps te l current new pki ps ≠ .error (.NoMetadataFor q) := by
  intro ps
  induction ps with
  | nil => intro _ _ q h; cases h
  | cons p rest ih =>
    intro h1 h2 q h
    obtain ⟨md, hmd⟩ := Option.isSome_iff_exists.1 (h1 p (List.mem_cons_self _ _))
    have hnn : (if te then (new.lookup p).isNone else false) = false := by
      cases te with
      | false => rfl
      | true =>
        obtain ⟨v, hv⟩ := Option.isSome_iff_exists.1 (h2 p (List.mem_cons_self _ _))
        simp [hv]
    simp only [message.createReps, hmd, hnn] at h
    cases hpki : pki.lookup p with
    | none => rw [hpki] at h; cases h
    | some ck =>
      rw [hpki] at h
      cases hrec : message.createReps te l current new pki rest with
      | error e =>
        rw [hrec] at h
        cases h
        exact ih (fun r hr => h1 r (List.mem_cons_of_mem _ hr))
          (fun r hr => h2 r (List.mem_cons_of_mem _ hr)) q hrec
      | ok acc => rw [hrec] at h; cases h

-- Keys present in the diff lists have resolvable lookups.

theorem lookup_isSome_of_mem_keys {β : Path → Type} (s : AList β) {p : Path}
    (h : p ∈ s.keys) : (s.lookup p).isSome = true :=
  AList.lookup_isSome.2 (AList.mem_keys.2 h)

/-- C5: whenever `message::create` succeeds, the returned request list is
all Add requests (one per added path), then all Remove requests (one per
deleted path), then all Replace requests (one per modified path), with
nothing else interleaved. -/
theorem message_create_ordering (te : Bool) (l : SocketAddr)
    (current new : MetadataMap) (pki : BundleMap)
    (reqs : List (Path × RequestType))
    (h : message.create te l current new pki = .ok reqs) :
    ∃ adds dels reps, reqs = adds ++ dels ++ reps ∧
      adds.map Prod.fst = (diff.create current new).added ∧
      dels.map Prod.fst = (diff.create current new).deleted ∧
      reps.map Prod.fst = (diff.create current new).modified ∧
      (∀ pr ∈ adds, (pr.2).isAdd = true) ∧
      (∀ pr ∈ dels, (pr.2).isRemove = true) ∧
      (∀ pr ∈ reps, (pr.2).isReplace = true) := by
  simp only [message.create] at h
  cases ha : message.createAdds l new pki (diff.create current new).added with
  | error e => rw [ha] at h; cases h
  | ok adds =>
    rw [ha] at h
    cases hd : message.createDels l current (diff.create current new).deleted with
    | error e => rw [hd] at h; cases h
    | ok dels =>
      rw [hd] at h
      cases hr : message.createReps te l current new pki
          (diff.create current new).modified with
      | error e => rw [hr] at h; cases h
      | ok reps =>
        rw [hr] at h
        cases h
        obtain ⟨a1, a2⟩ := createAdds_shape l new pki _ adds ha
        obtain ⟨d1, d2⟩ := createDels_shape l current _ dels hd
        obtain ⟨r1, r2⟩ := createReps_shape te l current new pki _ reps hr
        exact ⟨adds, dels, reps, rfl, a1, d1, r1, a2, d2, r2⟩

/-- C6: in a successful `message::create` result, the Remove request for a
deleted path carries exactly the fingerprint stored for that path in the
current snapshot, and the Replace request for a modified path carries the
old fingerprint from the current snapshot together with the payload from
the freshly loaded bundle mapping. -/
theorem message_create_payloads (te : Bool) (l : SocketAddr)
    (current new : MetadataMap) (pki : BundleMap)
    (reqs : List (Path × RequestType))
    (h : message.create te l current new pki = .ok reqs) :
    (∀ p, p ∈ (diff.create current new).deleted →
      ∃ md, current.lookup p = some md ∧
        (p, RequestType.removeCertificate
          { address := l, fingerprint := md.fingerprint }) ∈ reqs ∧
        ∀ r, (p, r) ∈ reqs → r = RequestType.removeCertificate
          { address := l, fingerprint := md.fingerprint }) ∧
    (∀ p, p ∈ (diff.create current new).modified →
      ∃ md ck, current.lookup p = some md ∧ pki.lookup p = some ck ∧
        (p, RequestType.replaceCertificate
          { address := l, new_certificate := ck,
            old_fingerprint := md.fingerprint, new_expired_at := none }) ∈ reqs ∧
        ∀ r, (p, r) ∈ reqs → r = RequestType.replaceCertificate
          { address := l, new_certificate := ck,
            old_fingerprint := md.fingerprint, new_expired_at := none }) := by
  simp only [message.create] at h
  cases ha : message.createAdds l new pki (diff.create current new).added with
  | error e => rw [ha] at h; cases h
  | ok adds =>
    rw [ha] at h
    cases hd : message.createDels l current (diff.create current new).deleted with
    | error e => rw [hd] at h; cases h
    | ok dels =>
      rw [hd] at h
      cases hr : message.createReps te l current new pki
          (diff.create current new).modified with
      | error e => rw [hr] at h; cases h
      | ok reps =>
        rw [hr] at h
        cases h
        obtain ⟨a1, _a2⟩ := createAdds_shape l new pki _ adds ha
        obtain ⟨d1, _d2⟩ := createDels_shape l current _ dels hd
        obtain ⟨r1, _r2⟩ := createReps_shape te l current new pki _ reps hr
        constructor
        · intro p hp
          obtain ⟨pr, hpr, hfst⟩ := List.mem_map.1 (d1 ▸ hp)
          obtain ⟨p2, r⟩ := pr
          have hp2 : p2 = p := hfst
          rw [hp2] at hpr
          obtain ⟨_, md, hmd, hreq⟩ := (createDels_mem l current _ dels hd p r).1 hpr
          subst hreq
          refine ⟨md, hmd, by simp [List.mem_append, hpr], ?_⟩
          intro r2 hr2
          have hr3 : (p, r2) ∈ adds ∨ (p, r2) ∈ dels ∨ (p, r2) ∈ reps := by
            simpa [List.mem_append, or_assoc] using hr2
          rcases hr3 with hin | hin2 | hin2
          · exfalso
            have hpadd : p ∈ (diff.create current new).added :=
              a1 ▸ List.mem_map.2 ⟨(p, r2), hin, rfl⟩
            exact ((mem_added_iff current new p).1 hpadd).2
              ((mem_deleted_iff current new p).1 hp).1
          · obtain ⟨_, md2, hmd2, hreq2⟩ :=
              (createDels_mem l current _ dels hd p r2).1 hin2
            rw [hmd] at hmd2
            cases hmd2
            exact hreq2
          · exfalso
            have hpmod : p ∈ (diff.create current new).modified :=
              r1 ▸ List.mem_map.2 ⟨(p, r2), hin2, rfl⟩
            exact ((mem_deleted_iff current new p).1 hp).2
              ((mem_modified_iff current new p).1 hpmod).2.1
        · intro p hp
          obtain ⟨pr, hpr, hfst⟩ := List.mem_map.1 (r1 ▸ hp)
          obtain ⟨p2, r⟩ := pr
          have hp2 : p2 = p := hfst
          rw [hp2] at hpr
          obtain ⟨_, md, ck, hmd, hck, hreq⟩ :=
            (createReps_mem te l current new pki _ reps hr p r).1 hpr
          subst hreq
          refine ⟨md, ck, hmd, hck, by simp [List.mem_append, hpr], ?_⟩
          intro r2 hr2
          have hr3 : (p, r2) ∈ adds ∨ (p, r2) ∈ dels ∨ (p, r2) ∈ reps := by
            simpa [List.mem_append, or_assoc] using hr2
          rcases hr3 with hin | hin2 | hin2
          · exfalso
            have hpadd : p ∈ (diff.create current new).added :=
              a1 ▸ List.mem_map.2 ⟨(p, r2), hin, rfl⟩
            exact ((mem_added_iff current new p).1 hpadd).2
              ((mem_modified_iff current new p).1 hp).1
          · exfalso
            have hpdel : p ∈ (diff.create current new).deleted :=
              d1 ▸ List.mem_map.2 ⟨(p, r2), hin2, rfl⟩
            exact ((mem_deleted_iff current new p).1 hpdel).2
              ((mem_modified_iff current new p).1 hp).2.1
          · obtain ⟨_, md2, ck2, hmd2, hck2, hreq2⟩ :=
              (createReps_mem te l current new pki _ reps hr p r2).1 hin2
            rw [hmd] at hmd2
            rw [hck] at hck2
            cases hmd2
            cases hck2
            exact hreq2

/-- C10: `message::create` never fails with `NoMetadataFor` (the diff is
computed internally, so added paths are keys of `new` and deleted or
modified paths are keys of `current`); and whenever every key of `new` is
also a key of the bundle mapping, `message::create` returns `Ok`. -/
theorem message_create_total (te : Bool) (l : SocketAddr)
    (current new : MetadataMap) (pki : BundleMap) :
    (∀ q, message.create te l current new pki ≠ .error (.NoMetadataFor q)) ∧
    ((∀ p ∈ new.keys, p ∈ pki.keys) →
      ∃ reqs, message.create te l current new pki = .ok reqs) := by
  have hadd_new : ∀ p ∈ (diff.create current new).added, (new.lookup p).isSome = true :=
    fun p hp => lookup_isSome_of_mem_keys new ((mem_added_iff current new p).1 hp).1
  have hdel_cur : ∀ p ∈ (diff.create current new).deleted,
      (current.lookup p).isSome = true :=
    fun p hp => lookup_isSome_of_mem_keys current ((mem_deleted_iff current new p).1 hp).1
  have hmod_cur : ∀ p ∈ (diff.create current new).modified,
      (current.lookup p).isSome = true :=
    fun p hp => lookup_isSome_of_mem_keys current ((mem_modified_iff current new p).1 hp).1
  have hmod_new : ∀ p ∈ (diff.create current new).modified, (new.lookup p).isSome = true :=
    fun p hp => lookup_isSome_of_mem_keys new ((mem_modified_iff current new p).1 hp).2.1
  constructor
  · intro q h
    simp only [message.create] at h
    cases ha : message.createAdds l new pki (diff.create current new).added with
    | error e =>
      rw [ha] at h
      cases h
      exact createAdds_noMeta l new pki _ hadd_new q ha
    | ok adds =>
      rw [ha] at h
      cases hd : message.createDels l current (diff.create current new).deleted with
      | error e =>
        rw [hd] at h
        cases h
        exact createDels_noMeta l current _ hdel_cur q hd
      | ok dels =>
        rw [hd] at h
        cases hr : message.createReps te l current new pki
            (diff.create current new).modified with
        | error e =>
          rw [hr] at h
          cases h
          exact createReps_noMeta te l current new pki _ hmod_cur hmod_new q hr
        | ok reps => rw [hr] at h; cases h
  · intro hsub
    have hpki_of_new : ∀ {p : Path}, p ∈ new.keys → (pki.lookup p).isSome = true :=
      fun hp => lookup_isSome_of_mem_keys pki (hsub _ hp)
    obtain ⟨adds, ha⟩ := createAdds_isOk l new pki _ hadd_new
      (fun p hp => hpki_of_new ((mem_added_iff current new p).1 hp).1)
    obtain ⟨dels, hd⟩ := createDels_isOk l current _ hdel_cur
    obtain ⟨reps, hr⟩ := createReps_isOk te l current new pki _ hmod_cur hmod_new
      (fun p hp => hpki_of_new ((mem_modified_iff current new p).1 hp).2.1)
    refine ⟨adds ++ dels ++ reps, ?_⟩
    simp only [message.create, ha, hd, hr]

-- -------------------------------------------------------------------------
-- Concrete sample data used by the witnesses.

def pathA : Path := ["siteA"]

def pathB : Path := ["siteB"]

def listenerSample : SocketAddr := "127.0.0.1:8443"

def certB : CertificateAndKey :=
  { certificate := "CERT-B2", certificate_chain := [], key := "KEY-B",
    versions := [], names := ["b.example"] }

def metaA : Metadata :=
  { fingerprint := "fp-a", names := {"a.example"}, path := pathA,
    chain_fingerprints := ∅ }

def metaB1 : Metadata :=
  { fingerprint := "fp-b1", names := {"b.example"}, path := pathB,
    chain_fingerprints := ∅ }

def metaB2 : Metadata :=
  { fingerprint := "fp-b2", names := {"b.example"}, path := pathB,
    chain_fingerprints := ∅ }

/-- Prior snapshot holding `siteA` and `siteB`. -/
def currentSample : MetadataMap := AList.insert pathA metaA (AList.insert pathB metaB1 ∅)

/-- Fresh snapshot: `siteA` is gone, `siteB` changed fingerprint. -/
def newSample : MetadataMap := AList.insert pathB metaB2 ∅

def pkiSample : BundleMap := AList.insert pathB certB ∅

/-- The request list `message::create` produces on the sample snapshots:
one Remove for `siteA`, then one Replace for `siteB`. -/
def reqsSample : List (Path × RequestType) :=
  [(pathA, RequestType.removeCertificate
      { address := listenerSample, fingerprint := "fp-a" }),
   (pathB, RequestType.replaceCertificate
      { address := listenerSample, new_certificate := certB,
        old_fingerprint := "fp-b1", new_expired_at := none })]

/-- Witness for C5: the ordering theorem applied to the sample round. -/
theorem message_create_ordering_witness :
    message.create false listenerSample currentSample newSample pkiSample
        = .ok reqsSample ∧
    (∃ adds dels reps, reqsSample = adds ++ dels ++ reps ∧
      adds.map Prod.fst = (diff.create currentSample newSample).added ∧
      dels.map Prod.fst = (diff.create currentSample newSample).deleted ∧
      reps.map Prod.fst = (diff.create currentSample newSample).modified ∧
      (∀ pr ∈ adds, (pr.2).isAdd = true) ∧
      (∀ pr ∈ dels, (pr.2).isRemove = true) ∧
      (∀ pr ∈ reps, (pr.2).isReplace = true)) :=
  ⟨by rfl, message_create_ordering false listenerSample currentSample newSample
    pkiSample reqsSample (by rfl)⟩

/-- Witness for C6: the payload theorem applied to the sample round. -/
theorem message_create_payloads_witness :
    message.create false listenerSample currentSample newSample pkiSample
        = .ok reqsSample ∧
    ((∀ p, p ∈ (diff.create currentSample newSample).deleted →
      ∃ md, currentSample.lookup p = some md ∧
        (p, RequestType.removeCertificate
          { address := listenerSample, fingerprint := md.fingerprint }) ∈ reqsSample ∧
        ∀ r, (p, r) ∈ reqsSample → r = RequestType.removeCertificate
          { address := listenerSample, fingerprint := md.fingerprint }) ∧
    (∀ p, p ∈ (diff.create currentSample newSample).modified →
      ∃ md ck, currentSample.lookup p = some md ∧ pkiSample.lookup p = some ck ∧
        (p, RequestType.replaceCertificate
          { address := listenerSample, new_certificate := ck,
            old_fingerprint := md.fingerprint, new_expired_at := none }) ∈ reqsSample ∧
        ∀ r, (p, r) ∈ reqsSample → r = RequestType.replaceCertificate
          { address := listenerSample, new_certificate := ck,
            old_fingerprint := md.fingerprint, new_expired_at := none })) :=
  ⟨by rfl, message_create_payloads false listenerSample currentSample newSample
    pkiSample reqsSample (by rfl)⟩

/-- Witness for C10: on the sample round every key of the fresh snapshot
has a loaded bundle, and `message::create` indeed returns `Ok`. -/
theorem message_create_total_witness :
    (∀ p ∈ newSample.keys, p ∈ pkiSample.keys) ∧
    (∃ reqs, message.create false listenerSample currentSample newSample pkiSample
        = .ok reqs) :=
  ⟨by decide, (message_create_total false listenerSample currentSample newSample
    pkiSample).2 (by decide)⟩

/-- C7: change detection compares full Metadata structures: a path present
in both snapshots with equal fingerprint, names and path but different
chain-fingerprint sets is classified as modified. -/
theorem chain_only_change_modified (current new : MetadataMap) (p : Path)
    (m1 m2 : Metadata)
    (hc : current.lookup p = some m1) (hn : new.lookup p = some m2)
    (hfp : m1.fingerprint = m2.fingerprint) (hnames : m1.names = m2.names)
    (hpath : m1.path = m2.path)
    (hchain : m1.chain_fingerprints ≠ m2.chain_fingerprints) :
    p ∈ (diff.create current new).modified := by
  rw [mem_modified_iff]
  refine ⟨?_, ?_, ?_⟩
  · exact AList.mem_keys.1 (AList.lookup_isSome.1 (by rw [hc]; rfl))
  · exact AList.mem_keys.1 (AList.lookup_isSome.1 (by rw [hn]; rfl))
  · rw [hc, hn]
    intro h
    cases h
    exact hchain rfl

/-- A metadata value differing from `metaB1` only in its chain
fingerprints. -/
def metaB1c : Metadata :=
  { fingerprint := "fp-b1", names := {"b.example"}, path := pathB,
    chain_fingerprints := {"chain-fp"} }

/-- Witness for C7: a chain-only change on the sample path is classified
as modified. -/
theorem chain_only_change_modified_witness :
    (AList.insert pathB metaB1 ∅ : MetadataMap).lookup pathB = some metaB1 ∧
    (AList.insert pathB metaB1c ∅ : MetadataMap).lookup pathB = some metaB1c ∧
    metaB1.fingerprint = metaB1c.fingerprint ∧
    metaB1.names = metaB1c.names ∧
    metaB1.path = metaB1c.path ∧
    metaB1.chain_fingerprints ≠ metaB1c.chain_fingerprints ∧
    pathB ∈ (diff.create (AList.insert pathB metaB1 ∅)
      (AList.insert pathB metaB1c ∅)).modified :=
  ⟨by rfl, by rfl, by rfl, by rfl, by rfl, by decide,
    chain_only_change_modified (AList.insert pathB metaB1 ∅)
      (AList.insert pathB metaB1c ∅) pathB metaB1 metaB1c
      (by rfl) (by rfl) (by rfl) (by rfl) (by rfl) (by decide)⟩

-- -------------------------------------------------------------------------
-- src/svc/certificates/mod.rs: the bundle loader and metadata extractor.

namespace certificates

/-- Embeds `certificates::Error` (src/svc/certificates/mod.rs). -/
inductive Error where
  | ReadDir (p : Path) (e : String)
  | ReadEntry (e : String)
  | DirectoryName (p : Path)
  | Read (p : Path) (e : String)
  | ParsePem (e : String)
  | ParseX509 (e : String)
  | Fingerprint (e : String)
deriving DecidableEq, Repr

/-- The `sozu_command_lib::certificate` helpers and `serde_json` parsing,
kept abstract: PEM and X.509 values are represented by strings. -/
structure CertLib where
  split_certificate_chain : String → List String
  parse_pem : String → Except String String
  parse_x509 : String → Except String String
  get_cn_and_san_attributes : String → List String
  calculate_fingerprint : String → Except String Fingerprint
  parse_options : String → Except String (List Nat)

/-- The filesystem, kept abstract: file contents by path, and
`fs::metadata(..).is_ok()` existence checks. -/
structure FileSystem where
  read_to_string : Path → Except String String
  file_exists : Path → Bool

/-- One entry of `fs::read_dir`. -/
structure DirEntry where
  path : Path
  is_dir : Bool
deriving DecidableEq, Repr

/-- Embeds `certificates::read` (src/svc/certificates/mod.rs, lines 139-214):
load one bundle directory. Returns `Ok none` when the certificate file
splits into zero certificates; propagates read and parse errors; a
present-but-unparsable options.json yields an empty version list. -/
def read (lib : CertLib) (fs : FileSystem) (path : Path) :
    Except Error (Option CertificateAndKey) :=
  match path.getLast? with
  | none => .error (.DirectoryName path)
  | some name =>
    let certificates_path := path ++ [name ++ ".crt"]
    let key_path := path ++ [name ++ ".key"]
    let tls_path := path ++ ["options.json"]
    match fs.read_to_string certificates_path with
    | .error e => .error (.Read certificates_path e)
    | .ok content =>
      match lib.split_certificate_chain content with
      | [] => .ok none
      | certificate :: certificate_chain =>
        match fs.read_to_string key_path with
        | .error e => .error (.Read key_path e)
        | .ok key =>
          let versionsRes : Except Error (List Nat) :=
            if fs.file_exists tls_path then
              match fs.read_to_string tls_path with
              | .error e => .error (.Read tls_path e)
              | .ok options =>
                match lib.parse_options options with
                | .ok vs => .ok vs
                | .error _ => .ok []
            else .ok []
          match versionsRes with
          | .error e => .error e
          | .ok versions =>
            match lib.parse_pem certificate with
            | .error e => .error (.ParsePem e)
            | .ok pem =>
              match lib.parse_x509 pem with
              | .error e => .error (.ParseX509 e)
              | .ok x509 =>
                .ok (some { certificate := certificate,
                            certificate_chain := certificate_chain,
                            key := key, versions := versions,
                            names := lib.get_cn_and_san_attributes x509 })

/-- One step of the `certificates::find` scan loop: directory entries are
read as bundles; read failures and empty bundles are skipped; non-directory
entries are skipped. -/
def findStep (lib : CertLib) (fs : FileSystem) (acc : BundleMap)
    (entry : DirEntry) : BundleMap :=
  if entry.is_dir then
    match read lib fs entry.path with
    | .ok (some certificate_and_key) => acc.insert entry.path certificate_and_key
    | .ok none => acc
    | .error _ => acc
  else acc

/-- Embeds `certificates::find` (src/svc/certificates/mod.rs, lines 88-136). The
`scan` argument is the outcome of `fs::read_dir` plus `next_entry`:
a directory-level failure (already mapped to `ReadDir`/`ReadEntry`) or the
entry list. -/
def find (lib : CertLib) (fs : FileSystem)
    (scan : Except Error (List DirEntry)) : Except Error BundleMap :=
  match scan with
  | .error e => .error e
  | .ok entries => .ok (entries.foldl (findStep lib fs) ∅)

/-- The chain-fingerprint loop of `certificates::metadata`. -/
def chainFingerprints (lib : CertLib) :
    List String → Except Error (Finset Fingerprint)
  | [] => .ok ∅
  | certificate :: rest =>
    match lib.calculate_fingerprint certificate with
    | .error e => .error (.Fingerprint e)
    | .ok fp =>
      match chainFingerprints lib rest with
      | .error e => .error e
      | .ok s => .ok (insert fp s)

/-- Embeds `certificates::metadata` (src/svc/certificates/mod.rs, lines 217-239):
fingerprint of the leaf, fingerprints of the chain, names collected into a
set. Digest failures are propagated. -/
def metadata (lib : CertLib) (path : Path)
    (certificate_and_key : CertificateAndKey) : Except Error Metadata :=
  let names : Finset String := certificate_and_key.names.toFinset
  match lib.calculate_fingerprint certificate_and_key.certificate with
  | .error e => .error (.Fingerprint e)
  | .ok fingerprint =>
    match chainFingerprints lib certificate_and_key.certificate_chain with
    | .error e => .error e
    | .ok chain_fingerprints =>
      .ok (Metadata.new path fingerprint names chain_fingerprints)

end certificates

-- Lemmas about the scan fold.

theorem findStep_skip (lib : certificates.CertLib) (fs : certificates.FileSystem)
    (acc : BundleMap) (ent : certificates.DirEntry) (p : Path)
    (hread : (∃ e, certificates.read lib fs p = .error e) ∨
      certificates.read lib fs p = .ok none)
    (hacc : p ∉ acc) : p ∉ certificates.findStep lib fs acc ent := by
  unfold certificates.findStep
  cases hd : ent.is_dir with
  | false => simpa [hd] using hacc
  | true =>
    simp only [hd, if_true]
    cases hr : certificates.read lib fs ent.path with
    | error e => simpa using hacc
    | ok o =>
      cases o with
      | none => simpa using hacc
      | some ck =>
        simp only
        rw [AList.mem_insert]
        rintro (heq | hin)
        · subst heq
          rcases hread with ⟨e, he⟩ | he
          · rw [hr] at he; cases he
          · rw [hr] at he; cases he
        · exact hacc hin

theorem find_fold_skips (lib : certificates.CertLib) (fs : certificates.FileSystem)
    (p : Path)
    (hread : (∃ e, certificates.read lib fs p = .error e) ∨
      certificates.read lib fs p = .ok none) :
    ∀ (entries : List certificates.DirEntry) (acc : BundleMap), p ∉ acc →
      p ∉ entries.foldl (certificates.findStep lib fs) acc := by
  intro entries
  induction entries with
  | nil => intro acc h; simpa using h
  | cons ent rest ih =>
    intro acc hacc
    simp only [List.foldl_cons]
    exact ih _ (findStep_skip lib fs acc ent p hread hacc)

theorem find_fold_preserves (lib : certificates.CertLib)
    (fs : certificates.FileSystem) (q : Path) :
    ∀ (rest : List certificates.DirEntry) (acc : BundleMap),
      q ∉ rest.map certificates.DirEntry.path →
      (rest.foldl (certificates.findStep lib fs) acc).lookup q = acc.lookup q := by
  intro rest
  induction rest with
  | nil => intro acc _; rfl
  | cons ent tail ih =>
    intro acc hq
    simp only [List.map_cons, List.mem_cons] at hq
    push_neg at hq
    simp only [List.foldl_cons]
    rw [ih _ hq.2]
    unfold certificates.findStep
    cases hd : ent.is_dir with
    | false => simp [hd]
    | true =>
      simp only [hd, if_true]
      cases hr : certificates.read lib fs ent.path with
      | error e => rfl
      | ok o =>
        cases o with
        | none => rfl
        | some ck => exact AList.lookup_insert_ne hq.1

theorem find_fold_keeps (lib : certificates.CertLib) (fs : certificates.FileSystem) :
    ∀ (entries : List certificates.DirEntry) (acc : BundleMap) (q : Path)
      (ck : CertificateAndKey),
      (entries.map certificates.DirEntry.path).Nodup →
      certificates.DirEntry.mk q true ∈ entries →
      certificates.read lib fs q = .ok (some ck) →
      (entries.foldl (certificates.findStep lib fs) acc).lookup q = some ck := by
  intro entries
  induction entries with
  | nil => intro acc q ck _ hmem _; cases hmem
  | cons ent rest ih =>
    intro acc q ck hnodup hmem hread
    simp only [List.map_cons, List.nodup_cons] at hnodup
    rcases List.mem_cons.1 hmem with heq | hrest
    · subst heq
      simp only [List.foldl_cons]
      rw [find_fold_preserves lib fs q rest _ hnodup.1]
      unfold certificates.findStep
      simp only [if_true]
      rw [hread]
      exact AList.lookup_insert _
    · simp only [List.foldl_cons]
      exact ih _ q ck hnodup.2 hrest hread

theorem read_bad_options_empty_versions (lib : certificates.CertLib)
    (fs : certificates.FileSystem) (p : Path) (ck : CertificateAndKey)
    (hopts : ∀ s, ∃ e, lib.parse_options s = .error e)
    (h : certificates.read lib fs p = .ok (some ck)) :
    ck.versions = [] := by
  unfold certificates.read at h
  split at h
  · exact absurd h (by simp)
  · simp only at h
    split at h
    · exact absurd h (by simp)
    · split at h
      · exact absurd h (by simp)
      · split at h
        · exact absurd h (by simp)
        · split at h
          · exact absurd h (by simp)
          · rename_i versions hvers
            split at h
            · exact absurd h (by simp)
            · split at h
              · exact absurd h (by simp)
              · simp only [Except.ok.injEq, Option.some.injEq] at h
                subst h
                split at hvers
                · split at hvers
                  · exact absurd hvers (by simp)
                  · split at hvers
                    · rename_i vs hvs
                      obtain ⟨e, he⟩ := hopts _
                      rw [hvs] at he
                      exact absurd he (by simp)
                    · simp only [Except.ok.injEq] at hvers
                      rw [← hvers]
                · simp only [Except.ok.injEq] at hvers
                  rw [← hvers]

/-- C9: per-bundle load failures never fail the scan: on a successful
directory listing, `find` always returns a mapping; a bundle whose `read`
fails or yields no certificates is absent from that mapping; every other
valid bundle is still returned; and a bundle whose options.json never
parses is loaded with an empty TLS-version list. -/
theorem find_skips_bad_bundles (lib : certificates.CertLib)
    (fs : certificates.FileSystem) :
    (∀ entries, ∃ m, certificates.find lib fs (.ok entries) = .ok m) ∧
    (∀ p entries m,
      ((∃ e, certificates.read lib fs p = .error e) ∨
        certificates.read lib fs p = .ok none) →
      certificates.find lib fs (.ok entries) = .ok m → p ∉ m) ∧
    (∀ entries m q ck,
      (entries.map certificates.DirEntry.path).Nodup →
      certificates.DirEntry.mk q true ∈ entries →
      certificates.read lib fs q = .ok (some ck) →
      certificates.find lib fs (.ok entries) = .ok m → m.lookup q = some ck) ∧
    (∀ p ck, (∀ s, ∃ e, lib.parse_options s = .error e) →
      certificates.read lib fs p = .ok (some ck) → ck.versions = []) := by
  refine ⟨?_, ?_, ?_, ?_⟩
  · intro entries
    exact ⟨_, rfl⟩
  · intro p entries m hread hfind
    cases hfind
    exact find_fold_skips lib fs p hread entries ∅ (AList.not_mem_empty p)
  · intro entries m q ck hnodup hmem hread hfind
    cases hfind
    exact find_fold_keeps lib fs entries ∅ q ck hnodup hmem hread
  · intro p ck hopts h
    exact read_bad_options_empty_versions lib fs p ck hopts h

-- Concrete loader fixtures used by the witnesses.

/-- The single scan entry for the sample bundle directory. -/
def entryB : certificates.DirEntry := { path := pathB, is_dir := true }

/-- A toy certificate library: splitting yields the whole file as single
leaf, parsing succeeds structurally, the digest prefixes the input, and
options never parse. -/
def libSample : certificates.CertLib :=
  { split_certificate_chain := fun s => if s = "" then [] else [s],
    parse_pem := fun s => .ok s,
    parse_x509 := fun s => .ok s,
    get_cn_and_san_attributes := fun _ => ["b.example"],
    calculate_fingerprint := fun s => .ok ("fp-" ++ s),
    parse_options := fun _ => .error "bad json" }

/-- A filesystem holding the sample bundle `siteB` without options.json. -/
def fsSample : certificates.FileSystem :=
  { read_to_string := fun p =>
      if p = pathB ++ ["siteB.crt"] then .ok "CERT-B2"
      else if p = pathB ++ ["siteB.key"] then .ok "KEY-B"
      else .error "enoent",
    file_exists := fun _ => false }

/-- The sample filesystem with an unparsable options.json added. -/
def fsOpt : certificates.FileSystem :=
  { read_to_string := fun p =>
      if p = pathB ++ ["siteB.crt"] then .ok "CERT-B2"
      else if p = pathB ++ ["siteB.key"] then .ok "KEY-B"
      else if p = pathB ++ ["options.json"] then .ok "not-json"
      else .error "enoent",
    file_exists := fun p => decide (p = pathB ++ ["options.json"]) }

/-- The toy library with X.509 parsing of the decoded PEM broken. -/
def libBad : certificates.CertLib :=
  { libSample with parse_x509 := fun _ => .error "bad der" }

/-- Witness for C9: on the sample data the scan succeeds, a bundle whose
read fails is absent, the valid bundle is kept with its payload, and the
bundle with unparsable options loads with an empty version list. -/
theorem find_skips_bad_bundles_witness :
    (∃ m, certificates.find libSample fsSample (.ok [entryB]) = .ok m) ∧
    (((∃ e, certificates.read libBad fsSample pathB = .error e) ∨
        certificates.read libBad fsSample pathB = .ok none) ∧
      certificates.find libBad fsSample (.ok [entryB]) = .ok ∅ ∧
      pathB ∉ (∅ : BundleMap)) ∧
    (([entryB].map certificates.DirEntry.path).Nodup ∧
      certificates.DirEntry.mk pathB true ∈ [entryB] ∧
      certificates.read libSample fsSample pathB = .ok (some certB) ∧
      certificates.find libSample fsSample (.ok [entryB]) = .ok pkiSample ∧
      pkiSample.lookup pathB = some certB) ∧
    ((∀ s, ∃ e, libSample.parse_options s = .error e) ∧
      certificates.read libSample fsOpt pathB = .ok (some certB) ∧
      certB.versions = []) :=
  ⟨(find_skips_bad_bundles libSample fsSample).1 [entryB],
   ⟨Or.inl ⟨certificates.Error.ParseX509 "bad der", by rfl⟩, by rfl,
     (find_skips_bad_bundles libBad fsSample).2.1 pathB [entryB] ∅
       (Or.inl ⟨certificates.Error.ParseX509 "bad der", by rfl⟩) (by rfl)⟩,
   ⟨by simp, by simp [entryB], by rfl, by rfl,
     (find_skips_bad_bundles libSample fsSample).2.2.1 [entryB] pkiSample pathB certB
       (by simp) (by simp [entryB]) (by rfl) (by rfl)⟩,
   ⟨fun s => ⟨"bad json", rfl⟩, by rfl,
     (find_skips_bad_bundles libSample fsOpt).2.2.2 pathB certB
       (fun s => ⟨"bad json", rfl⟩) (by rfl)⟩⟩

-- -------------------------------------------------------------------------
-- src/svc/certificates/watcher.rs

namespace watcher

/-- The proxy client's error, reduced to the distinction the watcher makes
(`sozu_client::Error::Failure` versus everything else). -/
inductive ClientError where
  | Failure (m : String)
  | Other (m : String)
deriving DecidableEq, Repr

/-- Embeds `watcher::Error`, restricted to the variants `lookup` produces. -/
inductive Error where
  | FindCertificates (p : Path) (e : certificates.Error)
  | ComputeMetadata (p : Path) (e : certificates.Error)
  | ComputeMessage (e : message.Error)
  | Send (e : ClientError)
deriving DecidableEq, Repr

end watcher

/-- The `Watcher` struct: the configuration fields `lookup` uses and the
retained metadata snapshot (the ReconciliationState). The client is
modelled as the abstract send function passed to `lookup`. -/
structure Watcher where
  pki : Path
  listener : SocketAddr
  metadata : MetadataMap
deriving DecidableEq

namespace watcher

/-- The metadata-extraction loop of `Watcher::lookup` (watcher.rs, lines
122-130): insert each bundle's metadata, aborting on the first extraction
error, which is tagged with the configured pki root path. -/
def computeAll (lib : certificates.CertLib) (root : Path) :
    List (Sigma (fun _ : Path => CertificateAndKey)) → MetadataMap →
    Except Error MetadataMap
  | [], acc => .ok acc
  | entry :: rest, acc =>
    match certificates.metadata lib entry.1 entry.2 with
    | .error err => .error (.ComputeMetadata root err)
    | .ok md => computeAll lib root rest (acc.insert entry.1 md)

/-- Metadata extraction over a whole bundle mapping. -/
def extractAll (lib : certificates.CertLib) (root : Path) (pki : BundleMap) :
    Except Error MetadataMap :=
  computeAll lib root pki.entries ∅

/-- The send loop of `Watcher::lookup` (watcher.rs, lines 143-200): on
success keep the freshly computed entry; on a `Failure` rejection roll the
path back to the prior snapshot's value (or remove it when the prior
snapshot had none); on any other error abort with `Error::Send`. -/
def sendLoop (send : RequestType → Except ClientError Unit) (prior : MetadataMap) :
    List (Path × RequestType) → MetadataMap → Except Error MetadataMap
  | [], metadata => .ok metadata
  | (path, request) :: rest, metadata =>
    match send request with
    | .ok _ => sendLoop send prior rest metadata
    | .error (.Failure _) =>
      let rolled :=
        match prior.lookup path with
        | some meta => metadata.insert path meta
        | none => metadata.erase path
      sendLoop send prior rest rolled
    | .error e => .error (.Send e)

end watcher

/-- Embeds `Watcher::lookup` (watcher.rs, lines 109-213): scan the pki directory,
extract metadata per bundle, build the requests from the diff against the
retained snapshot, send them in order, and only then replace the retained
snapshot; any round-fatal error returns the watcher unchanged. -/
def Watcher.lookup (lib : certificates.CertLib) (fs : certificates.FileSystem)
    (scan : Except certificates.Error (List certificates.DirEntry))
    (send : RequestType → Except watcher.ClientError Unit) (traceEnabled : Bool)
    (w : Watcher) : Watcher × Except watcher.Error Unit :=
  match certificates.find lib fs scan with
  | .error err => (w, .error (.FindCertificates w.pki err))
  | .ok pki =>
    match watcher.extractAll lib w.pki pki with
    | .error err => (w, .error err)
    | .ok metadata =>
      match message.create traceEnabled w.listener w.metadata metadata pki with
      | .error err => (w, .error (.ComputeMessage err))
      | .ok requests =>
        match watcher.sendLoop send w.metadata requests metadata with
        | .error err => (w, .error err)
        | .ok metadata2 => ({ w with metadata := metadata2 }, .ok ())

-- Lemmas about the send loop and the round.

theorem sendLoop_not_mem (send : RequestType → Except watcher.ClientError Unit)
    (prior : MetadataMap) :
    ∀ (reqs : List (Path × RequestType)) (m m2 : MetadataMap) (p : Path),
      p ∉ reqs.map Prod.fst → watcher.sendLoop send prior reqs m = .ok m2 →
      m2.lookup p = m.lookup p := by
  intro reqs
  induction reqs with
  | nil =>
    intro m m2 p _ h
    injection h with h1
    rw [← h1]
  | cons pr rest ih =>
    obtain ⟨q, r⟩ := pr
    intro m m2 p hp h
    simp only [List.map_cons, List.mem_cons] at hp
    push_neg at hp
    simp only [watcher.sendLoop] at h
    cases hs : send r with
    | ok u =>
      rw [hs] at h
      exact ih m m2 p hp.2 h
    | error ce =>
      cases ce with
      | Failure m0 =>
        rw [hs] at h
        simp only at h
        rw [ih _ m2 p hp.2 h]
        cases hpr : prior.lookup q with
        | some meta => simp [hpr, AList.lookup_insert_ne hp.1]
        | none => simp [hpr, AList.lookup_erase_ne hp.1]
      | Other m0 =>
        rw [hs] at h
        exact absurd h (by simp)

theorem sendLoop_rejected (send : RequestType → Except watcher.ClientError Unit)
    (prior : MetadataMap) (msg : String) :
    ∀ (reqs : List (Path × RequestType)) (m m2 : MetadataMap) (p : Path)
      (r : RequestType),
      (reqs.map Prod.fst).Nodup → (p, r) ∈ reqs →
      send r = .error (.Failure msg) →
      watcher.sendLoop send prior reqs m = .ok m2 →
      m2.lookup p = prior.lookup p := by
  intro reqs
  induction reqs with
  | nil => intro m m2 p r _ hmem _ _; cases hmem
  | cons pr rest ih =>
    obtain ⟨q, r0⟩ := pr
    intro m m2 p r hnodup hmem hrej h
    simp only [List.map_cons, List.nodup_cons] at hnodup
    rcases List.mem_cons.1 hmem with heq | hrest
    · injection heq with h1 h2
      subst h1
      subst h2
      simp only [watcher.sendLoop, hrej] at h
      rw [sendLoop_not_mem send prior rest _ m2 p hnodup.1 h]
      cases hpr : prior.lookup p with
      | some meta => simp [hpr]
      | none => simp [hpr]
    · simp only [watcher.sendLoop] at h
      cases hs : send r0 with
      | ok u =>
        rw [hs] at h
        exact ih m m2 p r hnodup.2 hrest hrej h
      | error ce =>
        cases ce with
        | Failure m0 =>
          rw [hs] at h
          simp only at h
          exact ih _ m2 p r hnodup.2 hrest hrej h
        | Other m0 =>
          rw [hs] at h
          exact absurd h (by simp)

theorem sendLoop_all_ok (send : RequestType → Except watcher.ClientError Unit)
    (prior : MetadataMap) (hok : ∀ r, send r = .ok ()) :
    ∀ (reqs : List (Path × RequestType)) (m : MetadataMap),
      watcher.sendLoop send prior reqs m = .ok m := by
  intro reqs
  induction reqs with
  | nil => intro m; rfl
  | cons pr rest ih =>
    obtain ⟨q, r⟩ := pr
    intro m
    simp only [watcher.sendLoop, hok r]
    exact ih m

/-- The paths of a successful `message::create` result are distinct. -/
theorem create_paths_nodup (te : Bool) (l : SocketAddr)
    (current new : MetadataMap) (pki : BundleMap)
    (reqs : List (Path × RequestType))
    (h : message.create te l current new pki = .ok reqs) :
    (reqs.map Prod.fst).Nodup := by
  simp only [message.create] at h
  cases ha : message.createAdds l new pki (diff.create current new).added with
  | error e => rw [ha] at h; cases h
  | ok adds =>
    rw [ha] at h
    cases hd : message.createDels l current (diff.create current new).deleted with
    | error e => rw [hd] at h; cases h
    | ok dels =>
      rw [hd] at h
      cases hr : message.createReps te l current new pki
          (diff.create current new).modified with
      | error e => rw [hr] at h; cases h
      | ok reps =>
        rw [hr] at h
        cases h
        obtain ⟨a1, _⟩ := createAdds_shape l new pki _ adds ha
        obtain ⟨d1, _⟩ := createDels_shape l current _ dels hd
        obtain ⟨r1, _⟩ := createReps_shape te l current new pki _ reps hr
        simp only [List.map_append, a1, d1, r1]
        rw [List.nodup_append, List.nodup_append]
        refine ⟨⟨added_nodup current new, deleted_nodup current new, ?_⟩,
          modified_nodup current new, ?_⟩
        · intro x hxa hxd
          exact ((mem_added_iff current new x).1 hxa).2
            ((mem_deleted_iff current new x).1 hxd).1
        · intro x hx hxm
          rcases List.mem_append.1 hx with hxa | hxd
          · exact ((mem_added_iff current new x).1 hxa).2
              ((mem_modified_iff current new x).1 hxm).1
          · exact ((mem_deleted_iff current new x).1 hxd).2
              ((mem_modified_iff current new x).1 hxm).2.1

/-- A path's diff classification depends only on the two lookups at that
path. -/
theorem diff_mem_congr (c1 n1 c2 n2 : MetadataMap) (p : Path)
    (hc : c1.lookup p = c2.lookup p) (hn : n1.lookup p = n2.lookup p) :
    ((p ∈ (diff.create c1 n1).added ↔ p ∈ (diff.create c2 n2).added) ∧
     (p ∈ (diff.create c1 n1).deleted ↔ p ∈ (diff.create c2 n2).deleted) ∧
     (p ∈ (diff.create c1 n1).modified ↔ p ∈ (diff.create c2 n2).modified)) := by
  have hkey : ∀ (s t : MetadataMap), s.lookup p = t.lookup p →
      (p ∈ s.keys ↔ p ∈ t.keys) := by
    intro s t hst
    constructor <;> intro hmem
    · have h1 := lookup_isSome_of_mem_keys s hmem
      rw [hst] at h1
      exact AList.mem_keys.1 (AList.lookup_isSome.1 h1)
    · have h1 := lookup_isSome_of_mem_keys t hmem
      rw [← hst] at h1
      exact AList.mem_keys.1 (AList.lookup_isSome.1 h1)
  have hkc := hkey c1 c2 hc
  have hkn := hkey n1 n2 hn
  refine ⟨?_, ?_, ?_⟩
  · rw [mem_added_iff, mem_added_iff, hkc, hkn]
  · rw [mem_deleted_iff, mem_deleted_iff, hkc, hkn]
  · rw [mem_modified_iff, mem_modified_iff, hkc, hkn, hc, hn]

/-- C3: whenever `Watcher::lookup` returns an error — scan failure,
extraction failure, builder failure, or a transport send failure — the
watcher's retained metadata is exactly as it was before the round. -/
theorem lookup_error_state_untouched (lib : certificates.CertLib)
    (fs : certificates.FileSystem)
    (scan : Except certificates.Error (List certificates.DirEntry))
    (send : RequestType → Except watcher.ClientError Unit) (te : Bool)
    (w w2 : Watcher) (e : watcher.Error)
    (h : Watcher.lookup lib fs scan send te w = (w2, .error e)) : w2 = w := by
  unfold Watcher.lookup at h
  split at h
  · injection h with h1 h2; exact h1.symm
  · split at h
    · injection h with h1 h2; exact h1.symm
    · split at h
      · injection h with h1 h2; exact h1.symm
      · split at h
        · injection h with h1 h2; exact h1.symm
        · injection h with h1 h2; cases h2

/-- C2: in a round that completes, a request rejected with the `Failure`
kind has its path rolled back in the committed snapshot to the prior
snapshot's value (restored when present, removed when it was a brand-new
addition), so the next round's diff classifies that path exactly as this
round's diff did whenever the next scan extracts the same metadata for
it. -/
theorem lookup_rejected_rollback (lib : certificates.CertLib)
    (fs : certificates.FileSystem)
    (scan : Except certificates.Error (List certificates.DirEntry))
    (send : RequestType → Except watcher.ClientError Unit) (te : Bool)
    (w w2 : Watcher) (pki : BundleMap) (metadata : MetadataMap)
    (requests : List (Path × RequestType)) (p : Path) (r : RequestType)
    (msg : String)
    (hfind : certificates.find lib fs scan = .ok pki)
    (hmeta : watcher.extractAll lib w.pki pki = .ok metadata)
    (hreq : message.create te w.listener w.metadata metadata pki = .ok requests)
    (hmem : (p, r) ∈ requests)
    (hrej : send r = .error (.Failure msg))
    (h : Watcher.lookup lib fs scan send te w = (w2, .ok ())) :
    w2.metadata.lookup p = w.metadata.lookup p ∧
    ∀ next : MetadataMap, next.lookup p = metadata.lookup p →
      ((p ∈ (diff.create w2.metadata next).added ↔
          p ∈ (diff.create w.metadata metadata).added) ∧
       (p ∈ (diff.create w2.metadata next).deleted ↔
          p ∈ (diff.create w.metadata metadata).deleted) ∧
       (p ∈ (diff.create w2.metadata next).modified ↔
          p ∈ (diff.create w.metadata metadata).modified)) := by
  unfold Watcher.lookup at h
  rw [hfind] at h
  simp only at h
  rw [hmeta] at h
  simp only at h
  rw [hreq] at h
  simp only at h
  have hroll : w2.metadata.lookup p = w.metadata.lookup p := by
    cases hs : watcher.sendLoop send w.metadata requests metadata with
    | error err => rw [hs] at h; injection h with h1 h2; cases h2
    | ok m2 =>
      rw [hs] at h
      injection h with h1 h2
      rw [← h1]
      exact sendLoop_rejected send w.metadata msg requests metadata m2 p r
        (create_paths_nodup te w.listener w.metadata metadata pki requests hreq)
        hmem hrej hs
  refine ⟨hroll, ?_⟩
  intro next hnext
  exact diff_mem_congr w2.metadata next w.metadata metadata p hroll hnext

theorem diff_self_added (A : MetadataMap) : (diff.create A A).added = [] := by
  simp [diff.create]

theorem diff_self_deleted (A : MetadataMap) : (diff.create A A).deleted = [] := by
  simp [diff.create]

theorem diff_self_modified (A : MetadataMap) : (diff.create A A).modified = [] := by
  simp [diff.create]

/-- With identical snapshots the builder produces no requests. -/
theorem create_self_empty (te : Bool) (l : SocketAddr) (A : MetadataMap)
    (pki : BundleMap) : message.create te l A A pki = .ok [] := by
  simp only [message.create, diff_self_added, diff_self_deleted, diff_self_modified]
  rfl

/-- C8: a clean round is idempotent: after a round in which every send
succeeded, running a second round over the same scan and extraction
results leaves the watcher unchanged, the second diff is empty, and the
builder produces zero requests. -/
theorem clean_round_idempotent (lib : certificates.CertLib)
    (fs : certificates.FileSystem)
    (scan : Except certificates.Error (List certificates.DirEntry))
    (send : RequestType → Except watcher.ClientError Unit) (te : Bool)
    (w w1 : Watcher)
    (hok : ∀ r, send r = .ok ())
    (h : Watcher.lookup lib fs scan send te w = (w1, .ok ())) :
    Watcher.lookup lib fs scan send te w1 = (w1, .ok ()) ∧
    (∀ pki metadata, certificates.find lib fs scan = .ok pki →
      watcher.extractAll lib w1.pki pki = .ok metadata →
      ((diff.create w1.metadata metadata).added = [] ∧
       (diff.create w1.metadata metadata).deleted = [] ∧
       (diff.create w1.metadata metadata).modified = [] ∧
       message.create te w1.listener w1.metadata metadata pki = .ok [])) := by
  unfold Watcher.lookup at h
  cases hfind : certificates.find lib fs scan with
  | error err =>
    rw [hfind] at h
    injection h with h1 h2
    cases h2
  | ok pki0 =>
    rw [hfind] at h
    simp only at h
    cases hmeta : watcher.extractAll lib w.pki pki0 with
    | error err =>
      rw [hmeta] at h
      injection h with h1 h2
      cases h2
    | ok m0 =>
      rw [hmeta] at h
      simp only at h
      cases hreq : message.create te w.listener w.metadata m0 pki0 with
      | error err =>
        rw [hreq] at h
        injection h with h1 h2
        cases h2
      | ok reqs0 =>
        rw [hreq] at h
        simp only at h
        rw [sendLoop_all_ok send w.metadata hok reqs0 m0] at h
        injection h with h1 h2
        have hw1 : w1 = { w with metadata := m0 } := h1.symm
        subst hw1
        have hpki1 : ({ w with metadata := m0 } : Watcher).pki = w.pki := rfl
        constructor
        · unfold Watcher.lookup
          rw [hfind]
          simp only
          rw [hpki1, hmeta]
          simp only
          rw [create_self_empty te ({ w with metadata := m0 } : Watcher).listener m0 pki0]
          simp only [watcher.sendLoop]
        · intro pki1 metadata1 hfind1 hmeta1
          have hpki : pki0 = pki1 := Except.ok.inj hfind1
          subst hpki
          have hm : m0 = metadata1 := Except.ok.inj (hmeta.symm.trans hmeta1)
          subst hm
          exact ⟨diff_self_added m0, diff_self_deleted m0, diff_self_modified m0,
            create_self_empty te _ m0 pki0⟩

-- Lemmas for round-fatal extraction failures.

theorem computeAll_error (lib : certificates.CertLib) (root : Path) :
    ∀ (es : List (Sigma (fun _ : Path => CertificateAndKey))) (acc : MetadataMap)
      (p : Path) (ck : CertificateAndKey),
      Sigma.mk p ck ∈ es →
      (∃ e, certificates.metadata lib p ck = .error e) →
      ∃ err, watcher.computeAll lib root es acc = .error err := by
  intro es
  induction es with
  | nil => intro acc p ck hmem _; cases hmem
  | cons ent rest ih =>
    intro acc p ck hmem hbad
    simp only [watcher.computeAll]
    cases hm : certificates.metadata lib ent.1 ent.2 with
    | error err => exact ⟨watcher.Error.ComputeMetadata root err, rfl⟩
    | ok md =>
      rcases List.mem_cons.1 hmem with heq | hrest
      · exfalso
        obtain ⟨e, he⟩ := hbad
        have hm2 : certificates.metadata lib p ck = .ok md := by
          rw [← heq] at hm
          exact hm
        rw [he] at hm2
        cases hm2
      · exact ih _ p ck hrest hbad

/-- A digest failure makes `certificates::metadata` fail. -/
theorem metadata_digest_error (lib : certificates.CertLib) (p : Path)
    (ck : CertificateAndKey) (e : String)
    (hcalc : lib.calculate_fingerprint ck.certificate = .error e) :
    certificates.metadata lib p ck = .error (.Fingerprint e) := by
  simp [certificates.metadata, hcalc]

/-- C4, amended: a digest failure during metadata extraction is
round-fatal with the state untouched, whereas a bundle whose leaf
certificate fails PEM/X.509 parsing is skipped by the loader (absent from
the loaded mapping) rather than failing the round. -/
theorem extraction_digest_fatal_parse_skipped :
    (∀ (lib : certificates.CertLib) (fs : certificates.FileSystem)
      (scan : Except certificates.Error (List certificates.DirEntry))
      (send : RequestType → Except watcher.ClientError Unit) (te : Bool)
      (w : Watcher) (pki : BundleMap) (p : Path) (ck : CertificateAndKey)
      (e : String),
      certificates.find lib fs scan = .ok pki →
      Sigma.mk p ck ∈ pki.entries →
      lib.calculate_fingerprint ck.certificate = .error e →
      ∃ err, Watcher.lookup lib fs scan send te w = (w, .error err)) ∧
    (∀ (lib : certificates.CertLib) (fs : certificates.FileSystem) (p : Path)
      (e : certificates.Error) (entries : List certificates.DirEntry)
      (m : BundleMap),
      certificates.read lib fs p = .error e →
      certificates.find lib fs (.ok entries) = .ok m → p ∉ m) := by
  constructor
  · intro lib fs scan send te w pki p ck e hfind hmem hcalc
    obtain ⟨err, herr⟩ := computeAll_error lib w.pki pki.entries ∅ p ck hmem
      ⟨certificates.Error.Fingerprint e, metadata_digest_error lib p ck e hcalc⟩
    refine ⟨err, ?_⟩
    unfold Watcher.lookup
    rw [hfind]
    simp only
    rw [show watcher.extractAll lib w.pki pki = .error err from herr]
  · intro lib fs p e entries m hread hfind
    cases hfind
    exact find_fold_skips lib fs p (Or.inl ⟨e, hread⟩) entries ∅
      (AList.not_mem_empty p)

-- Concrete watcher fixtures used by the witnesses and counterexample.

/-- A watcher before its first round: empty ReconciliationState. -/
def wSample : Watcher :=
  { pki := ["pki"], listener := listenerSample, metadata := ∅ }

/-- A client that accepts every request. -/
def sendOk : RequestType → Except watcher.ClientError Unit := fun _ => .ok ()

/-- A client that rejects every request with the recoverable kind. -/
def sendRej : RequestType → Except watcher.ClientError Unit :=
  fun _ => .error (.Failure "rejected")

/-- The metadata the toy library extracts from the sample bundle. -/
def mdSample : Metadata :=
  { fingerprint := "fp-CERT-B2", names := ["b.example"].toFinset, path := pathB,
    chain_fingerprints := ∅ }

/-- The watcher after a clean first round over the sample bundle. -/
def w1Sample : Watcher :=
  { pki := ["pki"], listener := listenerSample,
    metadata := AList.insert pathB mdSample ∅ }

/-- The watcher after a first round whose only Add request was rejected:
the brand-new path has been rolled back out of the snapshot. -/
def w2Sample : Watcher :=
  { pki := ["pki"], listener := listenerSample,
    metadata := AList.erase pathB (AList.insert pathB mdSample ∅) }

/-- The single Add request of the sample first round. -/
def requestsSample : List (Path × RequestType) :=
  [(pathB, RequestType.addCertificate
    { address := listenerSample, certificate := certB, expired_at := none })]

/-- A failed directory scan. -/
def scanFail : Except certificates.Error (List certificates.DirEntry) :=
  .error (.ReadDir ["pki"] "boom")

/-- The toy library with the digest broken. -/
def libDigestBad : certificates.CertLib :=
  { libSample with calculate_fingerprint := fun _ => .error "digest" }

/-- Witness for C3: a failed scan leaves the sample watcher untouched. -/
theorem lookup_error_state_untouched_witness :
    Watcher.lookup libSample fsSample scanFail sendOk false wSample
      = (wSample, .error (.FindCertificates ["pki"] (.ReadDir ["pki"] "boom"))) ∧
    wSample = wSample :=
  ⟨by rfl, lookup_error_state_untouched libSample fsSample scanFail sendOk false
    wSample wSample (.FindCertificates ["pki"] (.ReadDir ["pki"] "boom")) (by rfl)⟩

/-- Witness for C2: the sample round whose only Add request is rejected
rolls the brand-new path back out of the snapshot. -/
theorem lookup_rejected_rollback_witness :
    certificates.find libSample fsSample (.ok [entryB]) = .ok pkiSample ∧
    watcher.extractAll libSample wSample.pki pkiSample
      = .ok (AList.insert pathB mdSample ∅) ∧
    message.create false wSample.listener wSample.metadata
      (AList.insert pathB mdSample ∅) pkiSample = .ok requestsSample ∧
    (pathB, RequestType.addCertificate
      { address := listenerSample, certificate := certB, expired_at := none })
      ∈ requestsSample ∧
    sendRej (RequestType.addCertificate
      { address := listenerSample, certificate := certB, expired_at := none })
      = .error (.Failure "rejected") ∧
    Watcher.lookup libSample fsSample (.ok [entryB]) sendRej false wSample
      = (w2Sample, .ok ()) ∧
    (w2Sample.metadata.lookup pathB = wSample.metadata.lookup pathB ∧
      ∀ next : MetadataMap,
        next.lookup pathB = (AList.insert pathB mdSample ∅ : MetadataMap).lookup pathB →
        ((pathB ∈ (diff.create w2Sample.metadata next).added ↔
            pathB ∈ (diff.create wSample.metadata (AList.insert pathB mdSample ∅)).added) ∧
         (pathB ∈ (diff.create w2Sample.metadata next).deleted ↔
            pathB ∈ (diff.create wSample.metadata (AList.insert pathB mdSample ∅)).deleted) ∧
         (pathB ∈ (diff.create w2Sample.metadata next).modified ↔
            pathB ∈ (diff.create wSample.metadata (AList.insert pathB mdSample ∅)).modified))) :=
  ⟨by rfl, by rfl, by rfl, by simp [requestsSample], by rfl, by rfl,
    lookup_rejected_rollback libSample fsSample (.ok [entryB]) sendRej false
      wSample w2Sample pkiSample (AList.insert pathB mdSample ∅) requestsSample
      pathB (RequestType.addCertificate
        { address := listenerSample, certificate := certB, expired_at := none })
      "rejected" (by rfl) (by rfl) (by rfl) (by simp [requestsSample]) (by rfl)
      (by rfl)⟩

/-- Witness for C8: after the clean sample round, a second identical round
changes nothing and builds zero requests. -/
theorem clean_round_idempotent_witness :
    (∀ r, sendOk r = .ok ()) ∧
    Watcher.lookup libSample fsSample (.ok [entryB]) sendOk false wSample
      = (w1Sample, .ok ()) ∧
    (Watcher.lookup libSample fsSample (.ok [entryB]) sendOk false w1Sample
        = (w1Sample, .ok ()) ∧
      (∀ pki metadata, certificates.find libSample fsSample (.ok [entryB]) = .ok pki →
        watcher.extractAll libSample w1Sample.pki pki = .ok metadata →
        ((diff.create w1Sample.metadata metadata).added = [] ∧
         (diff.create w1Sample.metadata metadata).deleted = [] ∧
         (diff.create w1Sample.metadata metadata).modified = [] ∧
         message.create false w1Sample.listener w1Sample.metadata metadata pki
           = .ok []))) :=
  ⟨fun _ => rfl, by rfl,
    clean_round_idempotent libSample fsSample (.ok [entryB]) sendOk false
      wSample w1Sample (fun _ => rfl) (by rfl)⟩

/-- Counterexample for C4: a bundle whose leaf certificate cannot be
parsed after PEM decoding does not make the round fail: the loader skips
it and the round completes with `Ok`, contradicting the claim that such a
failure is round-fatal. -/
theorem parse_failure_not_round_fatal :
    certificates.read libBad fsSample pathB = .error (.ParseX509 "bad der") ∧
    Watcher.lookup libBad fsSample (.ok [entryB]) sendOk false wSample
      = (wSample, .ok ()) :=
  ⟨by rfl, by rfl⟩

/-- Witness for the amended C4: a digest failure is round-fatal with the
state untouched, and the unparsable-leaf bundle is skipped by the
loader. -/
theorem extraction_digest_fatal_parse_skipped_witness :
    (certificates.find libDigestBad fsSample (.ok [entryB]) = .ok pkiSample ∧
      Sigma.mk pathB certB ∈ pkiSample.entries ∧
      libDigestBad.calculate_fingerprint certB.certificate = .error "digest" ∧
      ∃ err, Watcher.lookup libDigestBad fsSample (.ok [entryB]) sendOk false
        wSample = (wSample, .error err)) ∧
    (certificates.read libBad fsSample pathB = .error (.ParseX509 "bad der") ∧
      certificates.find libBad fsSample (.ok [entryB]) = .ok ∅ ∧
      pathB ∉ (∅ : BundleMap)) :=
  ⟨⟨by rfl, by decide, by rfl,
      extraction_digest_fatal_parse_skipped.1 libDigestBad fsSample
        (.ok [entryB]) sendOk false wSample pkiSample pathB certB "digest"
        (by rfl) (by decide) (by rfl)⟩,
   ⟨by rfl, by rfl,
      extraction_digest_fatal_parse_skipped.2 libBad fsSample pathB
        (.ParseX509 "bad der") [entryB] ∅ (by rfl) (by rfl)⟩⟩

end Pki
